import Mathlib

/-!
# Verification of generate_watchlist.py

A shallow embedding of the watchlist-generation pipeline of
src/generate_watchlist.py, together with theorems settling the
specification claims about it.

Modelling conventions:
* Python floats are modelled as rationals (ℚ); the decimal literals and the
  arithmetic the pipeline performs on them are exact at this granularity.
  An IEEE division of a value by zero produces a non-finite float
  (inf or NaN); this is modelled by `Option ℚ` with `none` standing for
  any non-finite result.
* pandas DataFrames are modelled as Lists of canonical rows (`Row`); a
  pandas Series is a `List ℚ` aligned positionally with the row list.
* `unicodedata.normalize("NFKC", s)` is modelled by `toHalfwidth`, its
  action on the full-width character block (U+FF01..U+FF5E) and the
  ideographic space, which is all this pipeline relies on; it is the
  identity elsewhere.
* Python dicts of config values are modelled as association lists with
  first-match lookup; assignment conses the new binding in front, which
  preserves lookup and key-membership semantics.
-/

set_option maxRecDepth 100000

attribute [local semireducible] Rat.add Rat.mul Rat.sub Rat.inv

/-- Models `to_halfwidth` (NFKC) on one character: full-width forms
U+FF01..U+FF5E map to their ASCII counterparts, the ideographic space to a
plain space; other characters are unchanged. -/
def toHalfwidthChar (c : Char) : Char :=
  if 0xFF01 ≤ c.toNat ∧ c.toNat ≤ 0xFF5E then Char.ofNat (c.toNat - 0xFEE0)
  else if c.toNat = 0x3000 then ' '
  else c

/-- Models `to_halfwidth(s)` = `unicodedata.normalize("NFKC", s)`. -/
def toHalfwidth (s : String) : String :=
  String.mk (s.toList.map toHalfwidthChar)

/-- Structural power of ten on rationals (kernel-friendly). -/
def qpow10 : ℕ → ℚ
  | 0 => 1
  | n + 1 => 10 * qpow10 n

/-- Absolute value on rationals, as Python `abs` computes it. -/
def qabs (q : ℚ) : ℚ :=
  if q < 0 then -q else q

/-- Python `str.strip()` on a character list: leading and trailing
whitespace removed. -/
def pyStrip (l : List Char) : List Char :=
  ((l.dropWhile Char.isWhitespace).reverse.dropWhile Char.isWhitespace).reverse

/-- Python `str.upper()` (the ASCII action, which is all the claims
exercise). -/
def strUpper (s : String) : String :=
  String.mk (s.toList.map Char.toUpper)

/-- Python `str.lower()` (the ASCII action). -/
def strLower (s : String) : String :=
  String.mk (s.toList.map Char.toLower)

/-- Whether a character list starts with the comment marker. -/
def startsWithHash (l : List Char) : Bool :=
  match l with
  | c :: _ => c = '#'
  | [] => false

/-- Maximal prefix of decimal digits, and the remaining characters. -/
def takeDigits : List Char → List Char × List Char
  | [] => ([], [])
  | c :: r =>
    if c.isDigit then
      let p := takeDigits r
      (c :: p.1, p.2)
    else ([], c :: r)

/-- Numeric value of a digit string (most significant first). -/
def digitsVal (ds : List Char) : ℕ :=
  ds.foldl (fun a c => a * 10 + (c.toNat - 48)) 0

/-- Value of a digit string read as a decimal fraction (.d₁d₂…). -/
def fracVal (ds : List Char) : ℚ :=
  (digitsVal ds : ℚ) / qpow10 ds.length

/-- Ten to an integer power, as Python float exponents behave. -/
def pow10 (e : ℤ) : ℚ :=
  if 0 ≤ e then qpow10 e.toNat else 1 / qpow10 (-e).toNat

/-- Matches the regex fragment `\d*\.?\d+` at the head of the input
(greedy with backtracking, as Python re behaves): an integer part,
optionally followed by a dot and a fractional part; a dangling dot is not
consumed.  Returns the matched value and the rest of the input. -/
def matchUnsigned (l : List Char) : Option (ℚ × List Char) :=
  let p1 := takeDigits l
  match p1.2 with
  | '.' :: r2 =>
    let p2 := takeDigits r2
    if p2.1 ≠ [] then some ((digitsVal p1.1 : ℚ) + fracVal p2.1, p2.2)
    else if p1.1 ≠ [] then some ((digitsVal p1.1 : ℚ), p1.2)
    else none
  | _ => if p1.1 ≠ [] then some ((digitsVal p1.1 : ℚ), p1.2) else none

/-- Matches the optional exponent group `(e[-+]?\d+)?` (case-insensitive)
at the head of the input; returns the exponent when the whole group
matches, otherwise the group matches empty. -/
def matchExp (l : List Char) : Option ℤ :=
  match l with
  | c :: r =>
    if c = 'e' ∨ c = 'E' then
      match r with
      | s :: r2 =>
        if s = '+' then
          let p := takeDigits r2
          if p.1 ≠ [] then some (digitsVal p.1 : ℤ) else none
        else if s = '-' then
          let p := takeDigits r2
          if p.1 ≠ [] then some (-(digitsVal p.1 : ℤ)) else none
        else
          let p := takeDigits r
          if p.1 ≠ [] then some (digitsVal p.1 : ℤ) else none
      | [] => none
    else none
  | [] => none

/-- Attempts the float regex `[-+]?\d*\.?\d+(e[-+]?\d+)?` at the head of
the input, returning the value of the match. -/
def matchFloatAt (l : List Char) : Option ℚ :=
  let core : List Char → ℚ → Option ℚ := fun l2 sgn =>
    match matchUnsigned l2 with
    | some (m, r) =>
      match matchExp r with
      | some e => some (sgn * m * pow10 e)
      | none => some (sgn * m)
    | none => none
  match l with
  | '-' :: r => core r (-1)
  | '+' :: r => core r 1
  | _ => core l 1

/-- Models `re.search` with the float pattern: the leftmost position at
which the pattern matches wins. -/
def scanFloat : List Char → Option ℚ
  | [] => none
  | c :: r =>
    match matchFloatAt (c :: r) with
    | some v => some v
    | none => scanFloat r

/-- The character clean-up `parse_float` performs before the regex search:
NFKC normalisation, then removal of percent signs, commas and spaces.
(The subsequent full-width sign replacements of the source are identities
after NFKC, and the outer strip only removes characters the search skips
anyway.) -/
def cleanFloat (s : String) : List Char :=
  (toHalfwidth s).toList.filter (fun c => !(c = '%' ∨ c = ',' ∨ c = ' '))

/-- Models `parse_float(val, default)` on an optional string value, as the
config code paths call it (`None` yields the default; in the config maps
reaching these calls every value is a string). -/
def parseFloatD (o : Option String) (d : ℚ) : ℚ :=
  match o with
  | none => d
  | some s => (scanFloat (cleanFloat s)).getD d

/-- Attempts the integer regex `[-+]?\d+` at the head of the input. -/
def matchIntAt (l : List Char) : Option ℤ :=
  match l with
  | '-' :: r =>
    let p := takeDigits r
    if p.1 ≠ [] then some (-(digitsVal p.1 : ℤ)) else none
  | '+' :: r =>
    let p := takeDigits r
    if p.1 ≠ [] then some (digitsVal p.1 : ℤ) else none
  | l2 =>
    let p := takeDigits l2
    if p.1 ≠ [] then some (digitsVal p.1 : ℤ) else none

/-- Leftmost match of the integer pattern. -/
def scanInt : List Char → Option ℤ
  | [] => none
  | c :: r =>
    match matchIntAt (c :: r) with
    | some v => some v
    | none => scanInt r

/-- The clean-up `parse_int` performs: NFKC, then removal of commas and
spaces. -/
def cleanInt (s : String) : List Char :=
  (toHalfwidth s).toList.filter (fun c => !(c = ',' ∨ c = ' '))

/-- Models `parse_int(val, default)` on an optional string value. -/
def parseIntD (o : Option String) (d : ℤ) : ℤ :=
  match o with
  | none => d
  | some s => (scanInt (cleanInt s)).getD d

/-- The separator class of `parse_list`: regex `[,、/|;]`. -/
def isListSep (c : Char) : Bool :=
  c = ',' ∨ c.toNat = 0x3001 ∨ c = '/' ∨ c = '|' ∨ c = ';'

/-- Splits a character list at every separator (as `re.split` does,
keeping empty segments). -/
def splitSeps : List Char → List (List Char)
  | [] => [[]]
  | c :: r =>
    if isListSep c then [] :: splitSeps r
    else
      match splitSeps r with
      | [] => [[c]]
      | g :: gs => (c :: g) :: gs

/-- Models `parse_list(val)`: empty input gives the empty list, otherwise
NFKC-normalise, split on the separator class, strip each part and drop
the empty parts. -/
def parseList (s : String) : List String :=
  if s = "" then []
  else ((splitSeps (toHalfwidth s).toList).map (fun cs => String.mk (pyStrip cs))).filter
    (fun p => p ≠ "")

/-- Config maps: Python dicts of strings, modelled as association lists
with first-match lookup. -/
abbrev Dict := List (String × String)

/-- Dict lookup (`cfg.get(k)` / `cfg[k]`). -/
def dictGet (d : Dict) (k : String) : Option String :=
  (d.find? (fun p => p.1 = k)).map (fun p => p.2)

/-- Dict lookup with default (`cfg.get(k, dflt)`). -/
def dictGetD (d : Dict) (k : String) (dflt : String) : String :=
  (dictGet d k).getD dflt

/-- Dict assignment (`cfg[k] = v`); consing preserves lookup semantics. -/
def dictSet (d : Dict) (k : String) (v : String) : Dict :=
  (k, v) :: d

/-- The DEFAULTS table of generate_watchlist.py, verbatim. -/
def DEFAULTS : Dict :=
  [("TOP_LIMIT", "40"),
   ("MIN_PRICE", "200"),
   ("MAX_PRICE", "20000"),
   ("MIN_TURNOVER", "3e8"),
   ("SECTOR_DEFENSIVE", "Utilities, Consumer Staples, Healthcare, Telecommunications"),
   ("EXCLUDE_SYMBOLS", ""),
   ("INCLUDE_SECTORS", ""),
   ("EXCLUDE_SECTORS", ""),
   ("W_CHANGE", "0.45"),
   ("W_TURNOVER", "0.30"),
   ("W_MCAP", "0.15"),
   ("W_DIV", "0.10"),
   ("W_PE", "-0.10"),
   ("GW_CHANGE", "0.6"),
   ("GW_TURNOVER", "0.3"),
   ("GW_MCAP", "0.1"),
   ("VW_DIV", "0.45"),
   ("VW_PE", "-0.35"),
   ("VW_MCAP", "0.20")]

/-- Splits a character list at the first occurrence of `sep`
(`raw.split(sep, 1)` guarded by `sep in raw`): `none` when `sep` does not
occur. -/
def splitFirst (sep : Char) : List Char → Option (List Char × List Char)
  | [] => none
  | c :: r =>
    if c = sep then some ([], r)
    else (splitFirst sep r).map (fun p => (c :: p.1, p.2))

/-- Key clean-up in `load_config`: NFKC, strip, upper-case. -/
def cleanKey (k : String) : String :=
  strUpper (String.mk (pyStrip (toHalfwidth k).toList))

/-- Removes a run of the character `c` from both ends of the list
(Python `str.strip(c)`). -/
def stripRunEnds (c : Char) (l : List Char) : List Char :=
  ((l.dropWhile (fun x => x = c)).reverse.dropWhile (fun x => x = c)).reverse

/-- Value clean-up in `load_config`: strip whitespace, then surrounding
single quotes, then surrounding double quotes. -/
def cleanVal (v : String) : String :=
  String.mk (stripRunEnds (Char.ofNat 34) (stripRunEnds (Char.ofNat 39) (pyStrip v.toList)))

/-- One iteration of the `load_config` line loop: `none` when the line is
skipped, otherwise the key/value pair that gets assigned.  A line is
skipped when it is empty or its stripped form starts with `#`; otherwise
it is split at the first `=`, else at the first `:`, else skipped. -/
def parseLine (raw : String) : Option (String × String) :=
  if raw = "" ∨ startsWithHash (pyStrip raw.toList) then none
  else
    match splitFirst '=' raw.toList with
    | some p => some (cleanKey (String.mk p.1), cleanVal (String.mk p.2))
    | none =>
      match splitFirst ':' raw.toList with
      | some p => some (cleanKey (String.mk p.1), cleanVal (String.mk p.2))
      | none => none

/-- The body of the `load_config` line loop: assign the parsed pair, or
leave the map unchanged on a skipped line. -/
def configStep (cfg : Dict) (raw : String) : Dict :=
  match parseLine raw with
  | some kv => dictSet cfg kv.1 kv.2
  | none => cfg

/-- Models `load_config(path)`: the file is either absent (`none`) or a
list of its lines; the resolved map starts from a copy of DEFAULTS and
folds every parseable line into it. -/
def loadConfig (file : Option (List String)) : Dict :=
  match file with
  | none => DEFAULTS
  | some lines => lines.foldl configStep DEFAULTS

/-- A canonical row as `ensure_fields` produces it: the renamed symbol
column plus the parsed numeric factor columns and the sector string. -/
structure Row where
  symbol : String
  price : ℚ
  chg_pct : ℚ
  turnover : ℚ
  mcap : ℚ
  pe : ℚ
  div_yield : ℚ
  sector : String
deriving DecidableEq, Repr

/-- Models the `_chg_pct` derivation branch of `ensure_fields` (the block
headed by the change-percent comment): with a dedicated percent column the
parsed values are taken as they are; otherwise, when an absolute-change
column exists AND the sum of absolute prices over the whole table is
positive, each row gets change divided by that row price times 100 —
where a zero price yields a non-finite IEEE value, modelled as `none`;
in every remaining case the column is the constant 0.0.  The price and
change lists carry the already `parse_float`-parsed column values. -/
def deriveChgPct (hasPct : Bool) (pct : List ℚ) (hasChg : Bool)
    (chg prices : List ℚ) : List (Option ℚ) :=
  if hasPct then pct.map some
  else if hasChg && decide (0 < (prices.map qabs).sum) then
    List.zipWith (fun c p => if p = 0 then none else some (c / p * 100)) chg prices
  else List.replicate prices.length (some (0 : ℚ))

/-- De-duplication by symbol keeping the first occurrence
(`drop_duplicates(subset=["_symbol"], keep="first")`): a row is kept
precisely when its symbol has not occurred earlier; `seen` carries the
symbols already emitted. -/
def dedupBySymbol (seen : List String) : List Row → List Row
  | [] => []
  | r :: rs =>
    if seen.contains r.symbol then dedupBySymbol seen rs
    else r :: dedupBySymbol (r.symbol :: seen) rs

/-- Models `apply_filters(df, cfg)`: the primary predicate (price bounds,
turnover bound, symbol exclusion), the optional sector allow/deny
filters, then de-duplication. -/
def applyFilters (cfg : Dict) (df : List Row) : List Row :=
  let min_price := parseFloatD (dictGet cfg "MIN_PRICE") 0
  let max_price := parseFloatD (dictGet cfg "MAX_PRICE") 1000000000000
  let min_turnover := parseFloatD (dictGet cfg "MIN_TURNOVER") 0
  let include_secs := (parseList (dictGetD cfg "INCLUDE_SECTORS" "")).map strLower
  let exclude_secs := (parseList (dictGetD cfg "EXCLUDE_SECTORS" "")).map strLower
  let exclude_syms := (parseList (dictGetD cfg "EXCLUDE_SYMBOLS" "")).map strUpper
  let out1 := df.filter (fun r =>
    decide (min_price ≤ r.price) && decide (r.price ≤ max_price) &&
    decide (min_turnover ≤ r.turnover) && !(exclude_syms.contains (strUpper r.symbol)))
  let out2 := if include_secs.isEmpty then out1
    else out1.filter (fun r => include_secs.contains (strLower r.sector))
  let out3 := if exclude_secs.isEmpty then out2
    else out2.filter (fun r => !(exclude_secs.contains (strLower r.sector)))
  dedupBySymbol [] out3

/-- The fractional (average-of-tied-positions) rank `rank(method="average",
ascending=…)` assigns to the value `x` within the column `s`: the number
of values strictly before `x` in the chosen order, plus the average of
the tied block, `(count of ties + 1)/2`. -/
def rankAvg (s : List ℚ) (ascending : Bool) (x : ℚ) : ℚ :=
  ((s.countP (fun y => if ascending then decide (y < x) else decide (x < y))) : ℚ)
  + (((s.countP (fun y => decide (y = x))) : ℚ) + 1) / 2

/-- The rank series `r` of `rank_score`. -/
def rankList (s : List ℚ) (ascending : Bool) : List ℚ :=
  s.map (rankAvg s ascending)

/-- `r.min()` over the rank series (only used on non-empty columns, as in
the source, where the series of a non-empty frame is non-empty). -/
def rminOf (s : List ℚ) (ascending : Bool) : ℚ :=
  match rankList s ascending with
  | [] => 0
  | r0 :: rt => rt.foldl min r0

/-- `r.max()` over the rank series. -/
def rmaxOf (s : List ℚ) (ascending : Bool) : ℚ :=
  match rankList s ascending with
  | [] => 0
  | r0 :: rt => rt.foldl max r0

/-- The value `rank_score(s, ascending)` gives to the entry `x` of the
column `s`: its rank, shifted by the minimum rank and divided by the rank
spread (by 1.0 when there is no spread).  The rank of an entry depends
only on its value, so the series arithmetic of the source is captured by
this per-value form. -/
def scoreOf (s : List ℚ) (ascending : Bool) (x : ℚ) : ℚ :=
  (rankAvg s ascending x - rminOf s ascending) /
    (if rmaxOf s ascending ≠ rminOf s ascending
     then rmaxOf s ascending - rminOf s ascending else 1)

/-- Models `rank_score(s, ascending)` as the positional series of scores. -/
def rankScore (s : List ℚ) (ascending : Bool) : List ℚ :=
  s.map (scoreOf s ascending)

/-- Models `compute_score_general(df, cfg)`: the weighted sum of the five
rank-normalised factor series, elementwise. -/
def computeScoreGeneral (cfg : Dict) (df : List Row) : List ℚ :=
  let wc := parseFloatD (dictGet cfg "W_CHANGE") (45 / 100)
  let wt := parseFloatD (dictGet cfg "W_TURNOVER") (30 / 100)
  let wm := parseFloatD (dictGet cfg "W_MCAP") (15 / 100)
  let wd := parseFloatD (dictGet cfg "W_DIV") (10 / 100)
  let wp := parseFloatD (dictGet cfg "W_PE") (-(10 / 100))
  df.map (fun r =>
    wc * scoreOf (df.map Row.chg_pct) false r.chg_pct
    + wt * scoreOf (df.map Row.turnover) false r.turnover
    + wm * scoreOf (df.map Row.mcap) false r.mcap
    + wd * scoreOf (df.map Row.div_yield) false r.div_yield
    + wp * scoreOf (df.map Row.pe) true r.pe)

/-- Models `compute_score_growth(df, cfg)`. -/
def computeScoreGrowth (cfg : Dict) (df : List Row) : List ℚ :=
  let wc := parseFloatD (dictGet cfg "GW_CHANGE") (6 / 10)
  let wt := parseFloatD (dictGet cfg "GW_TURNOVER") (3 / 10)
  let wm := parseFloatD (dictGet cfg "GW_MCAP") (1 / 10)
  df.map (fun r =>
    wc * scoreOf (df.map Row.chg_pct) false r.chg_pct
    + wt * scoreOf (df.map Row.turnover) false r.turnover
    + wm * scoreOf (df.map Row.mcap) false r.mcap)

/-- Models `compute_score_value(df, cfg)`. -/
def computeScoreValue (cfg : Dict) (df : List Row) : List ℚ :=
  let wd := parseFloatD (dictGet cfg "VW_DIV") (45 / 100)
  let wp := parseFloatD (dictGet cfg "VW_PE") (-(35 / 100))
  let wm := parseFloatD (dictGet cfg "VW_MCAP") (20 / 100)
  df.map (fun r =>
    wd * scoreOf (df.map Row.div_yield) false r.div_yield
    + wp * scoreOf (df.map Row.pe) true r.pe
    + wm * scoreOf (df.map Row.mcap) false r.mcap)

/-- Stable descending insertion by score: an element goes in front of the
first strictly smaller score, so equal scores keep their original
relative order. -/
def insertDesc (x : Row × ℚ) : List (Row × ℚ) → List (Row × ℚ)
  | [] => [x]
  | y :: ys => if y.2 < x.2 then x :: y :: ys else y :: insertDesc x ys

/-- Stable sort by score, descending. -/
def sortByScoreDesc : List (Row × ℚ) → List (Row × ℚ)
  | [] => []
  | x :: xs => insertDesc x (sortByScoreDesc xs)

/-- Models `pick_top(df, score, n)`: attach the positional scores, sort by
score descending, keep the first `n` rows.  (pandas `sort_values` leaves
the order of tied scores unspecified; the claims below never observe tie
order, and this model fixes it stably.) -/
def pickTop (df : List Row) (score : List ℚ) (n : ℕ) : List Row :=
  ((sortByScoreDesc (df.zip score)).take n).map (fun p => p.1)

/-- The five header lines `write_watchlist` emits: title, timestamp,
filter summary, row count, separator.  `cfg.get` of a missing key prints
as `None` inside the Python f-string. -/
def optStr (o : Option String) : String :=
  match o with
  | some s => s
  | none => "None"

/-- Header block of one output file. -/
def headerLines (title : String) (cfg : Dict) (ts : String) (total : ℕ) : List String :=
  ["# " ++ title,
   "# generated at " ++ ts ++ " (UTC)",
   "# filters: MIN_PRICE=" ++ optStr (dictGet cfg "MIN_PRICE")
     ++ "  MAX_PRICE=" ++ optStr (dictGet cfg "MAX_PRICE")
     ++ "  MIN_TURNOVER=" ++ optStr (dictGet cfg "MIN_TURNOVER"),
   "# total=" ++ toString total,
   "# ---- symbols below ----"]

/-- Models `write_watchlist`: the file contents as a list of lines — the
header block followed by one stripped symbol per picked row. -/
def writeWatchlist (title : String) (picked : List Row) (cfg : Dict) (ts : String) :
    List String :=
  headerLines title cfg ts picked.length ++ picked.map (fun r => String.mk (pyStrip r.symbol.toList))

/-- The defensive-sector set of `main`: the parsed, lower-cased
SECTOR_DEFENSIVE list (a Python set; list membership is equivalent). -/
def defensiveSet (cfg : Dict) : List String :=
  (parseList (dictGetD cfg "SECTOR_DEFENSIVE" "")).map strLower

/-- The growth sub-table of `main`: rows whose sector is not defensive,
or the whole table when the defensive set is empty. -/
def dfGrowth (cfg : Dict) (df : List Row) : List Row :=
  if (defensiveSet cfg).isEmpty then df
  else df.filter (fun r => !((defensiveSet cfg).contains (strLower r.sector)))

/-- The value sub-table of `main`: rows whose sector is defensive, or the
whole table when the defensive set is empty. -/
def dfValue (cfg : Dict) (df : List Row) : List Row :=
  if (defensiveSet cfg).isEmpty then df
  else df.filter (fun r => (defensiveSet cfg).contains (strLower r.sector))

/-- The three output files of one run. -/
structure WatchOut where
  general : List String
  growth : List String
  value : List String
deriving DecidableEq, Repr

/-- Models `main()` from the point where the input table is read: the
config file is resolved, the top limit clamped, the CSV either missing
(`none`), present but empty, or a list of canonical rows (`ensure_fields`
preserves the row count, so emptiness before and after it coincide).
`load_csv` raises SystemExit — modelled as `Except.error` carrying the
printed diagnostic — before any output file is touched, so an error run
carries no output. -/
def mainRun (ts : String) (cfgFile : Option (List String)) (csv : Option (List Row)) :
    Except String WatchOut :=
  let cfg := loadConfig cfgFile
  let top_n := (max 1 (parseIntD (dictGet cfg "TOP_LIMIT") 40)).toNat
  match csv with
  | none => Except.error "❌ 找不到 jp_latest.csv，请先运行 crawl_jp.py 生成。"
  | some raw =>
    if raw.isEmpty then Except.error "❌ jp_latest.csv 为空，无法生成清单。"
    else
      let df := applyFilters cfg raw
      if df.isEmpty then
        Except.ok
          { general := writeWatchlist "JP watchlist (general)" [] cfg ts
            growth := writeWatchlist "JP watchlist (growth)" [] cfg ts
            value := writeWatchlist "JP watchlist (value/defensive)" [] cfg ts }
      else
        let top_g := pickTop df (computeScoreGeneral cfg df) top_n
        let dg := dfGrowth cfg df
        let top_gr := pickTop dg (computeScoreGrowth cfg dg) top_n
        let dv := dfValue cfg df
        let top_v := pickTop dv (computeScoreValue cfg dv) top_n
        Except.ok
          { general := writeWatchlist "JP watchlist (general)" top_g cfg ts
            growth := writeWatchlist "JP watchlist (growth)" top_gr cfg ts
            value := writeWatchlist "JP watchlist (value/defensive)" top_v cfg ts }

/-- The general file of a run result; the empty list on an error run. -/
def generalFileOf (r : Except String WatchOut) : List String :=
  match r with
  | Except.ok o => o.general
  | Except.error _ => []

/-- The growth file of a run result; the empty list on an error run. -/
def growthFileOf (r : Except String WatchOut) : List String :=
  match r with
  | Except.ok o => o.growth
  | Except.error _ => []

/-- The value file of a run result; the empty list on an error run. -/
def valueFileOf (r : Except String WatchOut) : List String :=
  match r with
  | Except.ok o => o.value
  | Except.error _ => []

/-- `x` is at least as favored as `y` by the ranking direction: with
`ascending = false` the ranking favors high values, with
`ascending = true` it favors low values. -/
def favors (ascending : Bool) (x y : ℚ) : Prop :=
  if ascending then x ≤ y else y ≤ x

/-!
## Helper lemmas
-/

theorem dictGet_dictSet (d : Dict) (k v k2 : String) :
    dictGet (dictSet d k v) k2 = if k2 = k then some v else dictGet d k2 := by
  by_cases h : k2 = k
  · subst h; simp [dictGet, dictSet]
  · have h2 : ¬(k = k2) := fun e => h e.symm
    simp [dictGet, dictSet, List.find?, h, h2]

theorem foldl_min_le_init (l : List ℚ) (b : ℚ) : l.foldl min b ≤ b := by
  induction l generalizing b with
  | nil => exact le_refl b
  | cons c t ih =>
    calc t.foldl min (min b c) ≤ min b c := ih (min b c)
    _ ≤ b := min_le_left b c

theorem foldl_min_le_mem (l : List ℚ) (b : ℚ) (a : ℚ) (ha : a ∈ l) :
    l.foldl min b ≤ a := by
  induction l generalizing b with
  | nil => cases ha
  | cons c t ih =>
    rcases List.mem_cons.mp ha with h | h
    · subst h
      calc t.foldl min (min b a) ≤ min b a := foldl_min_le_init t (min b a)
      _ ≤ a := min_le_right b a
    · exact ih (min b c) h

theorem foldl_min_mem (l : List ℚ) (b : ℚ) :
    l.foldl min b = b ∨ l.foldl min b ∈ l := by
  induction l generalizing b with
  | nil => exact Or.inl rfl
  | cons c t ih =>
    rcases ih (min b c) with h | h
    · rcases min_choice b c with hm | hm
      · exact Or.inl (by rw [List.foldl_cons, h, hm])
      · exact Or.inr (by rw [List.foldl_cons, h, hm]; exact List.mem_cons_self c t)
    · exact Or.inr (List.mem_cons_of_mem c h)

theorem le_foldl_max_init (l : List ℚ) (b : ℚ) : b ≤ l.foldl max b := by
  induction l generalizing b with
  | nil => exact le_refl b
  | cons c t ih =>
    calc b ≤ max b c := le_max_left b c
    _ ≤ t.foldl max (max b c) := ih (max b c)

theorem le_foldl_max_mem (l : List ℚ) (b : ℚ) (a : ℚ) (ha : a ∈ l) :
    a ≤ l.foldl max b := by
  induction l generalizing b with
  | nil => cases ha
  | cons c t ih =>
    rcases List.mem_cons.mp ha with h | h
    · subst h
      calc a ≤ max b a := le_max_right b a
      _ ≤ t.foldl max (max b a) := le_foldl_max_init t (max b a)
    · exact ih (max b c) h

theorem foldl_max_mem (l : List ℚ) (b : ℚ) :
    l.foldl max b = b ∨ l.foldl max b ∈ l := by
  induction l generalizing b with
  | nil => exact Or.inl rfl
  | cons c t ih =>
    rcases ih (max b c) with h | h
    · rcases max_choice b c with hm | hm
      · exact Or.inl (by rw [List.foldl_cons, h, hm])
      · exact Or.inr (by rw [List.foldl_cons, h, hm]; exact List.mem_cons_self c t)
    · exact Or.inr (List.mem_cons_of_mem c h)

theorem rmin_le_rankAvg (s : List ℚ) (asc : Bool) (x : ℚ) (hx : x ∈ s) :
    rminOf s asc ≤ rankAvg s asc x := by
  cases s with
  | nil => cases hx
  | cons a t =>
    show (t.map (rankAvg (a :: t) asc)).foldl min (rankAvg (a :: t) asc a) ≤ _
    rcases List.mem_cons.mp hx with h | h
    · subst h; exact foldl_min_le_init _ _
    · exact foldl_min_le_mem _ _ _ (List.mem_map_of_mem _ h)

theorem rankAvg_le_rmax (s : List ℚ) (asc : Bool) (x : ℚ) (hx : x ∈ s) :
    rankAvg s asc x ≤ rmaxOf s asc := by
  cases s with
  | nil => cases hx
  | cons a t =>
    show _ ≤ (t.map (rankAvg (a :: t) asc)).foldl max (rankAvg (a :: t) asc a)
    rcases List.mem_cons.mp hx with h | h
    · subst h; exact le_foldl_max_init _ _
    · exact le_foldl_max_mem _ _ _ (List.mem_map_of_mem _ h)

theorem rmin_exists (s : List ℚ) (asc : Bool) (hne : s ≠ []) :
    ∃ y ∈ s, rminOf s asc = rankAvg s asc y := by
  cases s with
  | nil => exact absurd rfl hne
  | cons a t =>
    rcases foldl_min_mem (t.map (rankAvg (a :: t) asc)) (rankAvg (a :: t) asc a) with h | h
    · exact ⟨a, List.mem_cons_self a t, h⟩
    · rcases List.mem_map.mp h with ⟨y, hy, hy2⟩
      exact ⟨y, List.mem_cons_of_mem a hy, hy2.symm⟩

theorem rmax_exists (s : List ℚ) (asc : Bool) (hne : s ≠ []) :
    ∃ y ∈ s, rmaxOf s asc = rankAvg s asc y := by
  cases s with
  | nil => exact absurd rfl hne
  | cons a t =>
    rcases foldl_max_mem (t.map (rankAvg (a :: t) asc)) (rankAvg (a :: t) asc a) with h | h
    · exact ⟨a, List.mem_cons_self a t, h⟩
    · rcases List.mem_map.mp h with ⟨y, hy, hy2⟩
      exact ⟨y, List.mem_cons_of_mem a hy, hy2.symm⟩

theorem rmin_le_rmax (s : List ℚ) (asc : Bool) (hne : s ≠ []) :
    rminOf s asc ≤ rmaxOf s asc := by
  cases s with
  | nil => exact absurd rfl hne
  | cons a t =>
    exact (rmin_le_rankAvg _ asc a (List.mem_cons_self a t)).trans
      (rankAvg_le_rmax _ asc a (List.mem_cons_self a t))

theorem countP_add_countP_le (l : List ℚ) (p q r : ℚ → Bool)
    (hp : ∀ z ∈ l, p z = true → r z = true)
    (hq : ∀ z ∈ l, q z = true → r z = true)
    (hpq : ∀ z ∈ l, ¬(p z = true ∧ q z = true)) :
    l.countP p + l.countP q ≤ l.countP r := by
  induction l with
  | nil => simp
  | cons a t ih =>
    have iht := ih (fun z hz h => hp z (List.mem_cons_of_mem a hz) h)
      (fun z hz h => hq z (List.mem_cons_of_mem a hz) h)
      (fun z hz => hpq z (List.mem_cons_of_mem a hz))
    simp only [List.countP_cons]
    by_cases hpa : p a = true
    · have hra : r a = true := hp a (List.mem_cons_self a t) hpa
      have hqa : ¬(q a = true) := fun hqa => hpq a (List.mem_cons_self a t) ⟨hpa, hqa⟩
      simp [hpa, hra, hqa]; omega
    · by_cases hqa : q a = true
      · have hra : r a = true := hq a (List.mem_cons_self a t) hqa
        simp [hpa, hqa, hra]; omega
      · by_cases hra : r a = true <;> simp [hpa, hqa, hra] <;> omega

theorem rankAvg_le_of_top (s : List ℚ) (asc : Bool) (x y : ℚ) (hy : y ∈ s)
    (hfav : ∀ z ∈ s, favors asc x z) : rankAvg s asc x ≤ rankAvg s asc y := by
  cases asc with
  | false =>
    have hfav2 : ∀ z ∈ s, z ≤ x := by
      intro z hz; have := hfav z hz; simpa [favors] using this
    have h0 : s.countP (fun z => decide (x < z)) = 0 :=
      List.countP_eq_zero.mpr (fun z hz => by simp [not_lt.mpr (hfav2 z hz)])
    by_cases hxy : y = x
    · subst hxy; exact le_refl _
    · have hyx : y < x := lt_of_le_of_ne (hfav2 y hy) hxy
      have hc : s.countP (fun z => decide (z = x)) ≤ s.countP (fun z => decide (y < z)) :=
        List.countP_mono_left (fun z _ h => by
          have hzx : z = x := of_decide_eq_true h
          simp [hzx, hyx])
      have hc2 := (Nat.cast_le (α := ℚ)).mpr hc
      have h3 : (0 : ℚ) ≤ (s.countP (fun z => decide (z = y)) : ℚ) := Nat.cast_nonneg _
      have h0q : ((s.countP (fun z => decide (x < z)) : ℕ) : ℚ) = 0 := by
        rw [h0]; norm_num
      simp only [rankAvg]
      push_cast at hc2 ⊢
      linarith [h0q, hc2, h3]
  | true =>
    have hfav2 : ∀ z ∈ s, x ≤ z := by
      intro z hz; have := hfav z hz; simpa [favors] using this
    have h0 : s.countP (fun z => decide (z < x)) = 0 :=
      List.countP_eq_zero.mpr (fun z hz => by simp [not_lt.mpr (hfav2 z hz)])
    by_cases hxy : y = x
    · subst hxy; exact le_refl _
    · have hyx : x < y := lt_of_le_of_ne (hfav2 y hy) (fun e => hxy e.symm)
      have hc : s.countP (fun z => decide (z = x)) ≤ s.countP (fun z => decide (z < y)) :=
        List.countP_mono_left (fun z _ h => by
          have hzx : z = x := of_decide_eq_true h
          simp [hzx, hyx])
      have hc2 := (Nat.cast_le (α := ℚ)).mpr hc
      have h3 : (0 : ℚ) ≤ (s.countP (fun z => decide (z = y)) : ℚ) := Nat.cast_nonneg _
      have h0q : ((s.countP (fun z => decide (z < x)) : ℕ) : ℚ) = 0 := by
        rw [h0]; norm_num
      simp only [rankAvg]
      push_cast at hc2 ⊢
      linarith [h0q, hc2, h3]

theorem rankAvg_ge_of_bottom (s : List ℚ) (asc : Bool) (x y : ℚ) (hy : y ∈ s)
    (hunf : ∀ z ∈ s, favors asc z x) : rankAvg s asc y ≤ rankAvg s asc x := by
  cases asc with
  | false =>
    have hunf2 : ∀ z ∈ s, x ≤ z := by
      intro z hz; have := hunf z hz; simpa [favors] using this
    by_cases hxy : y = x
    · subst hxy; exact le_refl _
    · have hxy2 : x < y := lt_of_le_of_ne (hunf2 y hy) (fun e => hxy e.symm)
      have hc : s.countP (fun z => decide (y < z)) + s.countP (fun z => decide (z = y))
          ≤ s.countP (fun z => decide (x < z)) := by
        apply countP_add_countP_le
        · intro z _ h; have := of_decide_eq_true h; simp [lt_trans hxy2 this]
        · intro z _ h; have hzy : z = y := of_decide_eq_true h; simp [hzy, hxy2]
        · intro z _ hand
          have h1 := of_decide_eq_true hand.1
          have h2 : z = y := of_decide_eq_true hand.2
          exact absurd (h2 ▸ h1) (lt_irrefl y)
      have hc2 := (Nat.cast_le (α := ℚ)).mpr hc
      have h3 : (0 : ℚ) ≤ (s.countP (fun z => decide (z = x)) : ℚ) := Nat.cast_nonneg _
      simp only [rankAvg]
      push_cast at hc2 ⊢
      linarith
  | true =>
    have hunf2 : ∀ z ∈ s, z ≤ x := by
      intro z hz; have := hunf z hz; simpa [favors] using this
    by_cases hxy : y = x
    · subst hxy; exact le_refl _
    · have hxy2 : y < x := lt_of_le_of_ne (hunf2 y hy) hxy
      have hc : s.countP (fun z => decide (z < y)) + s.countP (fun z => decide (z = y))
          ≤ s.countP (fun z => decide (z < x)) := by
        apply countP_add_countP_le
        · intro z _ h; have := of_decide_eq_true h; simp [lt_trans this hxy2]
        · intro z _ h; have hzy : z = y := of_decide_eq_true h; simp [hzy, hxy2]
        · intro z _ hand
          have h1 := of_decide_eq_true hand.1
          have h2 : z = y := of_decide_eq_true hand.2
          exact absurd (h2 ▸ h1) (lt_irrefl y)
      have hc2 := (Nat.cast_le (α := ℚ)).mpr hc
      have h3 : (0 : ℚ) ≤ (s.countP (fun z => decide (z = x)) : ℚ) := Nat.cast_nonneg _
      simp only [rankAvg]
      push_cast at hc2 ⊢
      linarith

theorem rankAvg_ne_of_ne (s : List ℚ) (asc : Bool) (a b : ℚ) (ha : a ∈ s) (hb : b ∈ s)
    (hab : a < b) : rankAvg s asc a ≠ rankAvg s asc b := by
  have hca : 0 < s.countP (fun z => decide (z = a)) :=
    List.countP_pos_iff.mpr ⟨a, ha, by simp⟩
  have hcb : 0 < s.countP (fun z => decide (z = b)) :=
    List.countP_pos_iff.mpr ⟨b, hb, by simp⟩
  have hcaq : (1 : ℚ) ≤ (s.countP (fun z => decide (z = a)) : ℚ) := by
    exact_mod_cast hca
  have hcbq : (1 : ℚ) ≤ (s.countP (fun z => decide (z = b)) : ℚ) := by
    exact_mod_cast hcb
  cases asc with
  | false =>
    have hc : s.countP (fun z => decide (b < z)) + s.countP (fun z => decide (z = b))
        ≤ s.countP (fun z => decide (a < z)) := by
      apply countP_add_countP_le
      · intro z _ h; have := of_decide_eq_true h; simp [lt_trans hab this]
      · intro z _ h; have hzb : z = b := of_decide_eq_true h; simp [hzb, hab]
      · intro z _ hand
        have h1 := of_decide_eq_true hand.1
        have h2 : z = b := of_decide_eq_true hand.2
        exact absurd (h2 ▸ h1) (lt_irrefl b)
    have hc2 := (Nat.cast_le (α := ℚ)).mpr hc
    intro heq
    simp only [rankAvg] at heq
    push_cast at hc2 heq
    linarith [hc2, hcaq, hcbq, heq]
  | true =>
    have hc : s.countP (fun z => decide (z < a)) + s.countP (fun z => decide (z = a))
        ≤ s.countP (fun z => decide (z < b)) := by
      apply countP_add_countP_le
      · intro z _ h; have := of_decide_eq_true h; simp [lt_trans this hab]
      · intro z _ h; have hza : z = a := of_decide_eq_true h; simp [hza, hab]
      · intro z _ hand
        have h1 := of_decide_eq_true hand.1
        have h2 : z = a := of_decide_eq_true hand.2
        exact absurd (h2 ▸ h1) (lt_irrefl a)
    have hc2 := (Nat.cast_le (α := ℚ)).mpr hc
    intro heq
    simp only [rankAvg] at heq
    push_cast at hc2 heq
    linarith [hc2, hcaq, hcbq, heq]

theorem rmin_lt_rmax_of_two (s : List ℚ) (asc : Bool) (a b : ℚ) (ha : a ∈ s) (hb : b ∈ s)
    (hab : a ≠ b) : rminOf s asc < rmaxOf s asc := by
  have hne : s ≠ [] := List.ne_nil_of_mem ha
  refine lt_of_le_of_ne (rmin_le_rmax s asc hne) (fun heq => ?_)
  have hra : rankAvg s asc a = rminOf s asc := by
    refine le_antisymm ?_ (rmin_le_rankAvg s asc a ha)
    rw [heq]; exact rankAvg_le_rmax s asc a ha
  have hrb : rankAvg s asc b = rminOf s asc := by
    refine le_antisymm ?_ (rmin_le_rankAvg s asc b hb)
    rw [heq]; exact rankAvg_le_rmax s asc b hb
  rcases lt_or_gt_of_ne hab with h | h
  · exact rankAvg_ne_of_ne s asc a b ha hb h (hra.trans hrb.symm)
  · exact rankAvg_ne_of_ne s asc b a hb ha h (hrb.trans hra.symm)

/-!
## Claim C1 (corrected)
-/

/-- C1, counterexample to the claim as stated: for the two-element column
[5, -2] ranked favor-high (ascending = false, the direction every caller
uses for favor-high factors), the most favored row (value 5) scores 0 and
the least favored scores 1 — not 1 and 0 as claimed; and for the
all-equal column [3, 3] every row scores 0, not 0.5. -/
theorem rankScore_claim_counterexample :
    rankScore [(5 : ℚ), -2] false = [0, 1] ∧ rankScore [(3 : ℚ), 3] false = [0, 0] := by
  decide

/-- C1, amended: for every non-empty numeric column, rank scores lie in
the closed interval [0, 1]; the row most favored by the chosen direction
scores exactly 0 and the least favored row scores exactly 1 (when not all
values are equal); when all values are equal every row scores exactly 0. -/
theorem rankScore_amended_bounds (s : List ℚ) (asc : Bool) (hne : s ≠ []) :
    (∀ v ∈ rankScore s asc, 0 ≤ v ∧ v ≤ 1)
    ∧ (∀ x ∈ s, (∀ y ∈ s, favors asc x y) → scoreOf s asc x = 0)
    ∧ (∀ x ∈ s, (∀ y ∈ s, favors asc y x) → (∃ a ∈ s, ∃ b ∈ s, a ≠ b) →
        scoreOf s asc x = 1)
    ∧ ((∀ a ∈ s, ∀ b ∈ s, a = b) → ∀ x ∈ s, scoreOf s asc x = 0) := by
  refine ⟨?_, ?_, ?_, ?_⟩
  · intro v hv
    simp only [rankScore] at hv
    obtain ⟨x, hx, rfl⟩ := List.mem_map.mp hv
    have h1 : rminOf s asc ≤ rankAvg s asc x := rmin_le_rankAvg s asc x hx
    have h2 : rankAvg s asc x ≤ rmaxOf s asc := rankAvg_le_rmax s asc x hx
    by_cases hmm : rmaxOf s asc ≠ rminOf s asc
    · have hlt : rminOf s asc < rmaxOf s asc :=
        lt_of_le_of_ne (rmin_le_rmax s asc hne) (Ne.symm hmm)
      have hD : (0 : ℚ) < rmaxOf s asc - rminOf s asc := sub_pos.mpr hlt
      simp only [scoreOf]
      rw [if_pos hmm]
      constructor
      · exact div_nonneg (sub_nonneg.mpr h1) (le_of_lt hD)
      · exact (div_le_one hD).mpr (sub_le_sub_right h2 _)
    · push_neg at hmm
      have hx0 : rankAvg s asc x = rminOf s asc := le_antisymm (hmm ▸ h2) h1
      simp only [scoreOf]
      rw [hx0, sub_self, zero_div]
      norm_num
  · intro x hx hfav
    have hxmin : rankAvg s asc x = rminOf s asc := by
      obtain ⟨y, hy, hmin⟩ := rmin_exists s asc hne
      refine le_antisymm ?_ (rmin_le_rankAvg s asc x hx)
      rw [hmin]
      exact rankAvg_le_of_top s asc x y hy hfav
    simp only [scoreOf]
    rw [hxmin, sub_self, zero_div]
  · intro x hx hunf hex
    obtain ⟨a, ha, b, hb, hab⟩ := hex
    have hlt := rmin_lt_rmax_of_two s asc a b ha hb hab
    have hne2 : rmaxOf s asc ≠ rminOf s asc := ne_of_gt hlt
    have hxmax : rankAvg s asc x = rmaxOf s asc := by
      obtain ⟨y, hy, hmax⟩ := rmax_exists s asc hne
      refine le_antisymm (rankAvg_le_rmax s asc x hx) ?_
      rw [hmax]
      exact rankAvg_ge_of_bottom s asc x y hy hunf
    simp only [scoreOf]
    rw [if_pos hne2, hxmax]
    exact div_self (sub_ne_zero.mpr hne2)
  · intro hall x hx
    have hxmin : rankAvg s asc x = rminOf s asc := by
      obtain ⟨y, hy, hmin⟩ := rmin_exists s asc hne
      rw [hmin, hall y hy x hx]
    simp only [scoreOf]
    rw [hxmin, sub_self, zero_div]

/-- C1 witness: the amended theorem applied to the concrete column
[3, 1, 2] ranked favor-high: the score of the entry 3 (most favored) is
in bounds and equals 0, and the score of the entry 1 (least favored)
equals 1. -/
theorem rankScore_amended_bounds_witness :
    (0 ≤ scoreOf [(3 : ℚ), 1, 2] false 3 ∧ scoreOf [(3 : ℚ), 1, 2] false 3 ≤ 1)
    ∧ scoreOf [(3 : ℚ), 1, 2] false 3 = 0
    ∧ scoreOf [(3 : ℚ), 1, 2] false 1 = 1 := by
  have h := rankScore_amended_bounds [(3 : ℚ), 1, 2] false (by decide)
  refine ⟨h.1 (scoreOf [(3 : ℚ), 1, 2] false 3) ?_, ?_, ?_⟩
  · exact List.mem_map_of_mem _ (List.mem_cons_self _ _)
  · refine h.2.1 3 (List.mem_cons_self _ _) ?_
    intro y hy
    simp only [favors]
    fin_cases hy <;> norm_num
  · refine h.2.2.1 1 (by simp) ?_ ⟨3, by simp, 1, by simp, by norm_num⟩
    intro y hy
    simp only [favors]
    fin_cases hy <;> norm_num

/-!
## Claim C2 (code bug)
-/

/-- The first scenario row of the specification example. -/
def rowAAA : Row :=
  { symbol := "AAA", price := 500, chg_pct := 5, turnover := 1000000000,
    mcap := 0, pe := 0, div_yield := 0, sector := "" }

/-- The second scenario row of the specification example. -/
def rowBBB : Row :=
  { symbol := "BBB", price := 500, chg_pct := -2, turnover := 2000000000,
    mcap := 0, pe := 0, div_yield := 0, sector := "" }

/-- The config file of the specification example: `W_CHANGE=1`, all other
general weights 0, `TOP_LIMIT=1`. -/
def cfgScenario : List String :=
  ["W_CHANGE=1", "W_TURNOVER=0", "W_MCAP=0", "W_DIV=0", "W_PE=0", "TOP_LIMIT=1"]

/-- C2: evaluating the pipeline at the specification scenario.  The
general watchlist contains exactly the symbol BBB — not AAA as the claim
states: `rank_score(..., ascending=False)` gives the row with the highest
change_pct the minimum rank 1, and the normalisation maps the minimum
rank to score 0, so with weight 1 on change the code ranks BBB (score 1)
above AAA (score 0). -/
theorem generalWatchlist_scenario_eval :
    generalFileOf (mainRun "T" (some cfgScenario) (some [rowAAA, rowBBB])) =
      ["# JP watchlist (general)", "# generated at T (UTC)",
       "# filters: MIN_PRICE=200  MAX_PRICE=20000  MIN_TURNOVER=3e8",
       "# total=1", "# ---- symbols below ----", "BBB"] := by
  decide

/-!
## Claim C3 (corrected)
-/

/-- C3, counterexample to the claim as stated: the DEFAULTS table maps
W_CHANGE to "0.45", not "0.35", and contains no W_MOM5 key at all. -/
theorem generalWeights_claim_counterexample :
    dictGet DEFAULTS "W_CHANGE" = some "0.45"
    ∧ dictGet DEFAULTS "W_CHANGE" ≠ some "0.35"
    ∧ dictGet DEFAULTS "W_MOM5" = none := by
  decide

/-- C3, amended: under the default configuration the general score is the
weighted sum of five rank-normalised factors — change% 0.45 (favor-high
direction flag), turnover 0.25 is wrong: turnover 0.30, market cap 0.15,
dividend yield 0.10 and price/earnings −0.10 (ranked ascending) — and no
momentum factor or W_MOM5 weight exists. -/
theorem generalWeights_defaults_amended (df : List Row) :
    computeScoreGeneral DEFAULTS df = df.map (fun r =>
      (45 / 100 : ℚ) * scoreOf (df.map Row.chg_pct) false r.chg_pct
      + (30 / 100) * scoreOf (df.map Row.turnover) false r.turnover
      + (15 / 100) * scoreOf (df.map Row.mcap) false r.mcap
      + (10 / 100) * scoreOf (df.map Row.div_yield) false r.div_yield
      + (-(10 / 100)) * scoreOf (df.map Row.pe) true r.pe)
    ∧ dictGet DEFAULTS "W_MOM5" = none := by
  constructor
  · have e1 : parseFloatD (dictGet DEFAULTS "W_CHANGE") (45 / 100) = 45 / 100 := by
      decide
    have e2 : parseFloatD (dictGet DEFAULTS "W_TURNOVER") (30 / 100) = 30 / 100 := by
      decide
    have e3 : parseFloatD (dictGet DEFAULTS "W_MCAP") (15 / 100) = 15 / 100 := by
      decide
    have e4 : parseFloatD (dictGet DEFAULTS "W_DIV") (10 / 100) = 10 / 100 := by
      decide
    have e5 : parseFloatD (dictGet DEFAULTS "W_PE") (-(10 / 100)) = -(10 / 100) := by
      decide
    simp only [computeScoreGeneral, e1, e2, e3, e4, e5]
  · decide

/-!
## Claim C4 (corrected)
-/

theorem zipWith_getElem? (f : ℚ → ℚ → Option ℚ) (l1 l2 : List ℚ) (i : ℕ)
    (h1 : i < l1.length) (h2 : i < l2.length) :
    (List.zipWith f l1 l2)[i]? = some (f (l1.get ⟨i, h1⟩) (l2.get ⟨i, h2⟩)) := by
  induction l1 generalizing l2 i with
  | nil => cases h1
  | cons a t ih =>
    cases l2 with
    | nil => cases h2
    | cons b u =>
      cases i with
      | zero => simp
      | succ j =>
        simpa using ih u j (Nat.lt_of_succ_lt_succ h1) (Nat.lt_of_succ_lt_succ h2)

/-- C4, counterexample to the claim as stated: with no dedicated percent
column, a change column [5, 5] and prices [0, 100], the table-level guard
passes (the sum of absolute prices is 100 > 0) and the first row — whose
price is zero — receives a non-finite change_pct (`none`), not the claimed
0.0 fallback. -/
theorem deriveChgPct_claim_counterexample :
    deriveChgPct false [] true [5, 5] [0, 100] = [none, some 5] := by
  decide

/-- C4, amended: the division-by-zero guard is table-level, not per-row —
when the absolute-change branch is taken (change column present, positive
total absolute price), a row with zero price receives a non-finite
change_pct; only when every price is zero does the whole column fall back
to 0.0. -/
theorem deriveChgPct_guard_amended (chg prices : List ℚ) (i : ℕ)
    (hc : i < chg.length) (hp : i < prices.length) :
    (0 < (prices.map qabs).sum → prices.get ⟨i, hp⟩ = 0 →
      (deriveChgPct false [] true chg prices)[i]? = some none)
    ∧ ((prices.map qabs).sum = 0 →
      deriveChgPct false [] true chg prices = List.replicate prices.length (some (0 : ℚ))) := by
  constructor
  · intro hsum hz
    have hbr : deriveChgPct false [] true chg prices =
        List.zipWith (fun c p => if p = 0 then none else some (c / p * 100)) chg prices := by
      simp [deriveChgPct, hsum]
    rw [hbr, zipWith_getElem? _ _ _ i hc hp, hz]
    simp
  · intro hsum0
    simp [deriveChgPct, hsum0]

/-- C4 witness: the amended theorem applied at change [5, 5] and prices
[0, 100], index 0: the table guard is active and the zero-price row gets
a non-finite value. -/
theorem deriveChgPct_guard_amended_witness :
    (0 < ((([(0 : ℚ), 100]).map qabs).sum))
    ∧ (deriveChgPct false [] true [5, 5] [0, 100])[0]? = some none :=
  ⟨by decide,
   (deriveChgPct_guard_amended [5, 5] [0, 100] 0 (by decide) (by decide)).1
     (by decide) (by decide)⟩

/-!
## Claim C5 (corrected)
-/

/-- C5, counterexample to the claim as stated: the config line `FOO=1`
introduces the key FOO — which is outside the DEFAULTS key set — into the
resolved map instead of being ignored. -/
theorem loadConfig_claim_counterexample :
    dictGet (loadConfig (some ["FOO=1"])) "FOO" = some "1"
    ∧ dictGet DEFAULTS "FOO" = none := by
  decide

theorem loadConfig_fold_aux (lines : List String) (d : Dict) (k : String) :
    ((dictGet (lines.foldl configStep d) k).isSome ↔
      ((dictGet d k).isSome ∨ ∃ l ∈ lines, ∃ v, parseLine l = some (k, v)))
    ∧ ((∀ l ∈ lines, ∀ v, parseLine l ≠ some (k, v)) →
      dictGet (lines.foldl configStep d) k = dictGet d k) := by
  induction lines generalizing d with
  | nil => simp
  | cons l ls ih =>
    simp only [List.foldl_cons]
    rcases hp : parseLine l with _ | ⟨k2, v2⟩
    · have hstep : configStep d l = d := by simp [configStep, hp]
      rw [hstep]
      constructor
      · rw [(ih d).1]
        constructor
        · rintro (h | ⟨l2, hl2, v, hv⟩)
          · exact Or.inl h
          · exact Or.inr ⟨l2, List.mem_cons_of_mem _ hl2, v, hv⟩
        · rintro (h | ⟨l2, hl2, v, hv⟩)
          · exact Or.inl h
          · rcases List.mem_cons.mp hl2 with rfl | h2
            · rw [hp] at hv; cases hv
            · exact Or.inr ⟨l2, h2, v, hv⟩
      · intro hnone
        exact (ih d).2 (fun l2 hl2 v hv => hnone l2 (List.mem_cons_of_mem _ hl2) v hv)
    · have hstep : configStep d l = dictSet d k2 v2 := by simp [configStep, hp]
      rw [hstep]
      by_cases hk : k = k2
      · subst hk
        constructor
        · refine iff_of_true ?_ (Or.inr ⟨l, List.mem_cons_self _ _, v2, hp⟩)
          refine (ih (dictSet d k v2)).1.mpr (Or.inl ?_)
          rw [dictGet_dictSet]
          simp
        · intro hnone
          exact absurd hp (hnone l (List.mem_cons_self _ _) v2)
      · have hbase : dictGet (dictSet d k2 v2) k = dictGet d k := by
          rw [dictGet_dictSet, if_neg hk]
        constructor
        · rw [(ih (dictSet d k2 v2)).1, hbase]
          constructor
          · rintro (h | ⟨l2, hl2, v, hv⟩)
            · exact Or.inl h
            · exact Or.inr ⟨l2, List.mem_cons_of_mem _ hl2, v, hv⟩
          · rintro (h | ⟨l2, hl2, v, hv⟩)
            · exact Or.inl h
            · rcases List.mem_cons.mp hl2 with rfl | h2
              · rw [hp] at hv
                injection hv with hv2
                exact absurd (congrArg Prod.fst hv2).symm hk
              · exact Or.inr ⟨l2, h2, v, hv⟩
        · intro hnone
          rw [(ih (dictSet d k2 v2)).2
            (fun l2 hl2 v hv => hnone l2 (List.mem_cons_of_mem _ hl2) v hv), hbase]

/-- C5, amended: in the resolved map every DEFAULTS key is present (with
its default value when no line of the file assigns it), and a key is
present exactly when it is a DEFAULTS key or some line of the file parses
to an assignment of it — unknown keys from the file are retained in the
map, not ignored. -/
theorem loadConfig_keys_amended (lines : List String) (k : String) :
    ((dictGet (loadConfig (some lines)) k).isSome ↔
      ((dictGet DEFAULTS k).isSome ∨ ∃ l ∈ lines, ∃ v, parseLine l = some (k, v)))
    ∧ ((∀ l ∈ lines, ∀ v, parseLine l ≠ some (k, v)) →
      dictGet (loadConfig (some lines)) k = dictGet DEFAULTS k) :=
  loadConfig_fold_aux lines DEFAULTS k

/-- C5 witness: for the file `["FOO=1"]`, the untouched default key
MIN_PRICE keeps its default value, and the unknown key FOO is present in
the resolved map. -/
theorem loadConfig_keys_amended_witness :
    dictGet (loadConfig (some ["FOO=1"])) "MIN_PRICE" = dictGet DEFAULTS "MIN_PRICE"
    ∧ (dictGet (loadConfig (some ["FOO=1"])) "FOO").isSome = true :=
  ⟨(loadConfig_keys_amended ["FOO=1"] "MIN_PRICE").2 (by
      intro l hl v hv
      rw [List.mem_singleton] at hl
      subst hl
      rw [show parseLine "FOO=1" = some ("FOO", "1") from by decide] at hv
      simp at hv),
   (loadConfig_keys_amended ["FOO=1"] "FOO").1.mpr
     (Or.inr ⟨"FOO=1", List.mem_singleton_self _, "1", by decide⟩)⟩

/-!
## Claim C7 (confirmed)
-/

/-- C7: a missing input file, and likewise a present but empty one,
terminate the run with the user-visible diagnostic the source prints on
SystemExit, and the run carries no output — `load_csv` raises before any
of the three files is opened for writing, which the model reflects by the
error result holding no file contents. -/
theorem missingInput_no_output (ts : String) (cfgFile : Option (List String)) :
    mainRun ts cfgFile none = Except.error "❌ 找不到 jp_latest.csv，请先运行 crawl_jp.py 生成。"
    ∧ mainRun ts cfgFile (some []) = Except.error "❌ jp_latest.csv 为空，无法生成清单。" :=
  ⟨rfl, rfl⟩

theorem isEmpty_false_of_ne_nil {α : Type} {l : List α} (h : l ≠ []) : l.isEmpty = false := by
  cases l with
  | nil => exact absurd rfl h
  | cons a t => rfl

/-!
## Claim C6 (confirmed)
-/

/-- C6: whenever the loaded table is non-empty but filtering removes
every row, the run succeeds and writes all three files, each consisting
of the header block with `total=0` and no symbol lines. -/
theorem emptyAfterFilter_outputs (ts : String) (cfgFile : Option (List String))
    (rows : List Row) (hne : rows ≠ [])
    (hemp : applyFilters (loadConfig cfgFile) rows = []) :
    mainRun ts cfgFile (some rows) = Except.ok
      { general := headerLines "JP watchlist (general)" (loadConfig cfgFile) ts 0
        growth := headerLines "JP watchlist (growth)" (loadConfig cfgFile) ts 0
        value := headerLines "JP watchlist (value/defensive)" (loadConfig cfgFile) ts 0 } := by
  have hne2 : rows.isEmpty = false := isEmpty_false_of_ne_nil hne
  simp [mainRun, hne2, hemp, writeWatchlist]

/-- A row whose price (10) is below the default MIN_PRICE bound of 200,
so the default filters remove it. -/
def rowCheap : Row :=
  { symbol := "CHP", price := 10, chg_pct := 0, turnover := 1000000000,
    mcap := 0, pe := 0, div_yield := 0, sector := "" }

/-- C6 witness: the theorem applied to the one-row table that the default
filters empty out. -/
theorem emptyAfterFilter_outputs_witness :
    [rowCheap] ≠ ([] : List Row)
    ∧ applyFilters (loadConfig none) [rowCheap] = []
    ∧ mainRun "T" none (some [rowCheap]) = Except.ok
        { general := headerLines "JP watchlist (general)" (loadConfig none) "T" 0
          growth := headerLines "JP watchlist (growth)" (loadConfig none) "T" 0
          value := headerLines "JP watchlist (value/defensive)" (loadConfig none) "T" 0 } :=
  ⟨by decide, by decide,
   emptyAfterFilter_outputs "T" none [rowCheap] (by decide) (by decide)⟩

/-!
## Claim C10 (confirmed)
-/

/-- C10: with a non-empty defensive-sector set, the growth sub-table
(sector not defensive, case-insensitively) and the value sub-table
(sector defensive) are disjoint: no row of the filtered table is in both. -/
theorem growth_value_disjoint (cfg : Dict) (df : List Row)
    (hne : defensiveSet cfg ≠ []) :
    ∀ r ∈ dfGrowth cfg df, r ∉ dfValue cfg df := by
  intro r hg hv
  have hne2 : (defensiveSet cfg).isEmpty = false := isEmpty_false_of_ne_nil hne
  simp only [dfGrowth, hne2, Bool.false_eq_true, if_false, List.mem_filter] at hg
  simp only [dfValue, hne2, Bool.false_eq_true, if_false, List.mem_filter] at hv
  rw [hv.2] at hg
  exact absurd hg.2 (by simp)

/-- A row in a non-defensive sector. -/
def rowTech : Row :=
  { symbol := "6501", price := 500, chg_pct := 1, turnover := 1000000000,
    mcap := 0, pe := 0, div_yield := 0, sector := "Tech" }

/-- C10 witness: under the default defensive set, the Tech row lands in
the growth sub-table and the theorem rules it out of the value one. -/
theorem growth_value_disjoint_witness :
    defensiveSet DEFAULTS ≠ []
    ∧ rowTech ∈ dfGrowth DEFAULTS [rowTech]
    ∧ rowTech ∉ dfValue DEFAULTS [rowTech] :=
  ⟨by decide, by decide,
   growth_value_disjoint DEFAULTS [rowTech] (by decide) rowTech (by decide)⟩

/-!
## Claim C9 (corrected)
-/

theorem length_insertDesc (x : Row × ℚ) (l : List (Row × ℚ)) :
    (insertDesc x l).length = l.length + 1 := by
  induction l with
  | nil => rfl
  | cons y ys ih => by_cases h : y.2 < x.2 <;> simp [insertDesc, h, ih]

theorem length_sortByScoreDesc (l : List (Row × ℚ)) :
    (sortByScoreDesc l).length = l.length := by
  induction l with
  | nil => rfl
  | cons x xs ih => simp [sortByScoreDesc, length_insertDesc, ih]

theorem length_pickTop (df : List Row) (score : List ℚ) (n : ℕ)
    (h : score.length = df.length) :
    (pickTop df score n).length = min n df.length := by
  simp [pickTop, List.length_take, length_sortByScoreDesc, List.length_zip, h]

theorem length_computeScoreGeneral (cfg : Dict) (df : List Row) :
    (computeScoreGeneral cfg df).length = df.length := by
  simp [computeScoreGeneral]

theorem length_computeScoreGrowth (cfg : Dict) (df : List Row) :
    (computeScoreGrowth cfg df).length = df.length := by
  simp [computeScoreGrowth]

theorem length_computeScoreValue (cfg : Dict) (df : List Row) :
    (computeScoreValue cfg df).length = df.length := by
  simp [computeScoreValue]

/-- A row in a defensive sector that passes all default filters. -/
def rowUtil : Row :=
  { symbol := "9501", price := 500, chg_pct := 1, turnover := 1000000000,
    mcap := 0, pe := 0, div_yield := 0, sector := "Utilities" }

/-- C9, counterexample to the claim as stated: under the config
`TOP_LIMIT=0` the clamp makes the effective limit 1 and the one-row table
(a Utilities row passing every filter) is non-empty after filtering, yet
the growth watchlist file has only its 5 header lines — zero symbols —
because the growth sub-table excludes the defensive sector. -/
theorem topLimit_claim_counterexample :
    applyFilters (loadConfig (some ["TOP_LIMIT=0"])) [rowUtil] ≠ []
    ∧ (max 1 (parseIntD (dictGet (loadConfig (some ["TOP_LIMIT=0"])) "TOP_LIMIT") 40)).toNat = 1
    ∧ (growthFileOf (mainRun "T" (some ["TOP_LIMIT=0"]) (some [rowUtil]))).length = 5 := by
  refine ⟨by decide, by decide, by decide⟩

/-- C9, amended: the effective limit is `max 1 (parsed TOP_LIMIT)`, so it
is at least 1 even for zero or negative configured values; each list
holds the top that many rows of its own sub-table, hence its symbol-line
count is `min (max 1 limit) (sub-table size)`; a non-empty filtered table
therefore guarantees at least one symbol in the general list, while the
growth and value lists may still be empty when their sector sub-table is
empty. -/
theorem topLimit_clamp_amended (ts : String) (cfgFile : Option (List String))
    (rows : List Row) (hne : rows ≠ [])
    (hfil : applyFilters (loadConfig cfgFile) rows ≠ []) :
    1 ≤ (max 1 (parseIntD (dictGet (loadConfig cfgFile) "TOP_LIMIT") 40)).toNat
    ∧ (generalFileOf (mainRun ts cfgFile (some rows))).length =
        5 + min (max 1 (parseIntD (dictGet (loadConfig cfgFile) "TOP_LIMIT") 40)).toNat
          (applyFilters (loadConfig cfgFile) rows).length
    ∧ (growthFileOf (mainRun ts cfgFile (some rows))).length =
        5 + min (max 1 (parseIntD (dictGet (loadConfig cfgFile) "TOP_LIMIT") 40)).toNat
          (dfGrowth (loadConfig cfgFile) (applyFilters (loadConfig cfgFile) rows)).length
    ∧ (valueFileOf (mainRun ts cfgFile (some rows))).length =
        5 + min (max 1 (parseIntD (dictGet (loadConfig cfgFile) "TOP_LIMIT") 40)).toNat
          (dfValue (loadConfig cfgFile) (applyFilters (loadConfig cfgFile) rows)).length
    ∧ 1 ≤ min (max 1 (parseIntD (dictGet (loadConfig cfgFile) "TOP_LIMIT") 40)).toNat
          (applyFilters (loadConfig cfgFile) rows).length := by
  have h1 : 1 ≤ (max 1 (parseIntD (dictGet (loadConfig cfgFile) "TOP_LIMIT") 40)).toNat := by
    have h2 : (1 : ℤ) ≤ max 1 (parseIntD (dictGet (loadConfig cfgFile) "TOP_LIMIT") 40) :=
      le_max_left _ _
    omega
  have hne2 : rows.isEmpty = false := isEmpty_false_of_ne_nil hne
  have hfil2 : (applyFilters (loadConfig cfgFile) rows).isEmpty = false :=
    isEmpty_false_of_ne_nil hfil
  refine ⟨h1, ?_, ?_, ?_, le_min h1 (List.length_pos.mpr hfil)⟩
  · simp [mainRun, hne2, hfil2, generalFileOf, writeWatchlist, headerLines,
      length_pickTop, length_computeScoreGeneral]
    omega
  · simp [mainRun, hne2, hfil2, growthFileOf, writeWatchlist, headerLines,
      length_pickTop, length_computeScoreGrowth]
    omega
  · simp [mainRun, hne2, hfil2, valueFileOf, writeWatchlist, headerLines,
      length_pickTop, length_computeScoreValue]
    omega

/-- C9 witness: the amended theorem at the one-row Utilities table with
`TOP_LIMIT=0`: the clamp and the per-list counts evaluate as stated. -/
theorem topLimit_clamp_amended_witness :
    [rowUtil] ≠ ([] : List Row)
    ∧ applyFilters (loadConfig (some ["TOP_LIMIT=0"])) [rowUtil] ≠ []
    ∧ 1 ≤ (max 1 (parseIntD (dictGet (loadConfig (some ["TOP_LIMIT=0"])) "TOP_LIMIT") 40)).toNat
    ∧ (generalFileOf (mainRun "T" (some ["TOP_LIMIT=0"]) (some [rowUtil]))).length =
        5 + min (max 1 (parseIntD (dictGet (loadConfig (some ["TOP_LIMIT=0"])) "TOP_LIMIT") 40)).toNat
          (applyFilters (loadConfig (some ["TOP_LIMIT=0"])) [rowUtil]).length :=
  ⟨by decide, by decide,
   (topLimit_clamp_amended "T" (some ["TOP_LIMIT=0"]) [rowUtil] (by decide) (by decide)).1,
   (topLimit_clamp_amended "T" (some ["TOP_LIMIT=0"]) [rowUtil] (by decide) (by decide)).2.1⟩

/-!
## Claim C8 (confirmed)
-/

theorem card_insert_erase {α : Type} [DecidableEq α] (s : Finset α) (a : α) :
    (insert a s).card = (s.erase a).card + 1 := by
  by_cases h : a ∈ s
  · rw [Finset.insert_eq_self.mpr h, ← Finset.card_erase_add_one h]
  · rw [Finset.card_insert_of_not_mem h, Finset.erase_eq_of_not_mem h]

/-- The length of the de-duplicated list counts the distinct symbols not
already seen. -/
theorem dedup_length_eq (seen : List String) (l : List Row) :
    (dedupBySymbol seen l).length =
      ((l.map Row.symbol).toFinset \ seen.toFinset).card := by
  induction l generalizing seen with
  | nil => simp [dedupBySymbol]
  | cons r rs ih =>
    by_cases h : seen.contains r.symbol
    · have hmem : r.symbol ∈ seen.toFinset := by
        rw [List.mem_toFinset]
        simpa using h
      simp only [dedupBySymbol, h, if_true, List.map_cons, List.toFinset_cons,
        Finset.insert_sdiff_of_mem _ hmem]
      exact ih seen
    · have hmem : r.symbol ∉ seen.toFinset := by
        rw [List.mem_toFinset]
        simpa using h
      simp only [dedupBySymbol, h, Bool.false_eq_true, if_false, List.length_cons,
        List.map_cons, List.toFinset_cons, Finset.insert_sdiff_of_not_mem _ hmem]
      rw [ih (r.symbol :: seen), card_insert_erase]
      congr 1
      rw [List.toFinset_cons, Finset.sdiff_insert]

/-- A sublist never has more distinct unseen symbols. -/
theorem dedup_length_mono (seen : List String) (l1 l2 : List Row)
    (h : List.Sublist l1 l2) :
    (dedupBySymbol seen l1).length ≤ (dedupBySymbol seen l2).length := by
  rw [dedup_length_eq, dedup_length_eq]
  apply Finset.card_le_card
  apply Finset.sdiff_subset_sdiff ?_ (le_refl _)
  intro x hx
  rw [List.mem_toFinset] at hx ⊢
  exact List.map_subset _ h.subset hx

/-- C8: the filter stage is antitone in its numeric bounds.  For any
table and any two configs that agree on every key other than the three
bounds, with the second config at least as tight (MIN_PRICE and
MIN_TURNOVER no lower, MAX_PRICE no higher), the filtered-and-
de-duplicated row count under the tighter config never exceeds the count
under the looser one.  The single-key variants of the claim are the
instances where the other two bounds coincide. -/
theorem applyFilters_antitone (df : List Row) (c1 c2 : Dict)
    (hkeys : ∀ k, k ≠ "MIN_PRICE" → k ≠ "MAX_PRICE" → k ≠ "MIN_TURNOVER" →
      dictGet c2 k = dictGet c1 k)
    (hmin : parseFloatD (dictGet c1 "MIN_PRICE") 0 ≤ parseFloatD (dictGet c2 "MIN_PRICE") 0)
    (hmax : parseFloatD (dictGet c2 "MAX_PRICE") 1000000000000 ≤
      parseFloatD (dictGet c1 "MAX_PRICE") 1000000000000)
    (htov : parseFloatD (dictGet c1 "MIN_TURNOVER") 0 ≤
      parseFloatD (dictGet c2 "MIN_TURNOVER") 0) :
    (applyFilters c2 df).length ≤ (applyFilters c1 df).length := by
  have hI : dictGetD c2 "INCLUDE_SECTORS" "" = dictGetD c1 "INCLUDE_SECTORS" "" := by
    unfold dictGetD
    rw [hkeys _ (by decide) (by decide) (by decide)]
  have hE : dictGetD c2 "EXCLUDE_SECTORS" "" = dictGetD c1 "EXCLUDE_SECTORS" "" := by
    unfold dictGetD
    rw [hkeys _ (by decide) (by decide) (by decide)]
  have hS : dictGetD c2 "EXCLUDE_SYMBOLS" "" = dictGetD c1 "EXCLUDE_SYMBOLS" "" := by
    unfold dictGetD
    rw [hkeys _ (by decide) (by decide) (by decide)]
  simp only [applyFilters, hI, hE, hS]
  apply dedup_length_mono
  have hprim : List.Sublist
      (df.filter (fun r =>
        decide (parseFloatD (dictGet c2 "MIN_PRICE") 0 ≤ r.price) &&
        decide (r.price ≤ parseFloatD (dictGet c2 "MAX_PRICE") 1000000000000) &&
        decide (parseFloatD (dictGet c2 "MIN_TURNOVER") 0 ≤ r.turnover) &&
        !(((parseList (dictGetD c1 "EXCLUDE_SYMBOLS" "")).map strUpper).contains
          (strUpper r.symbol))))
      (df.filter (fun r =>
        decide (parseFloatD (dictGet c1 "MIN_PRICE") 0 ≤ r.price) &&
        decide (r.price ≤ parseFloatD (dictGet c1 "MAX_PRICE") 1000000000000) &&
        decide (parseFloatD (dictGet c1 "MIN_TURNOVER") 0 ≤ r.turnover) &&
        !(((parseList (dictGetD c1 "EXCLUDE_SYMBOLS" "")).map strUpper).contains
          (strUpper r.symbol)))) := by
    apply List.monotone_filter_right
    intro r h
    simp only [Bool.and_eq_true, decide_eq_true_eq] at h ⊢
    exact ⟨⟨⟨le_trans hmin h.1.1.1, le_trans h.1.1.2 hmax⟩, le_trans htov h.1.2⟩, h.2⟩
  by_cases hinc : ((parseList (dictGetD c1 "INCLUDE_SECTORS" "")).map strLower).isEmpty <;>
    by_cases hexc : ((parseList (dictGetD c1 "EXCLUDE_SECTORS" "")).map strLower).isEmpty <;>
      simp only [hinc, hexc, if_true, if_false, Bool.false_eq_true] <;>
      first
        | exact hprim
        | exact hprim.filter _
        | exact (hprim.filter _).filter _

/-- C8 witness: tightening MIN_TURNOVER from the default 3e8 to 5e8 (all
other keys untouched) never increases the filtered count on a concrete
two-row table. -/
theorem applyFilters_antitone_witness :
    parseFloatD (dictGet DEFAULTS "MIN_TURNOVER") 0 ≤
      parseFloatD (dictGet (dictSet DEFAULTS "MIN_TURNOVER" "5e8") "MIN_TURNOVER") 0
    ∧ (applyFilters (dictSet DEFAULTS "MIN_TURNOVER" "5e8") [rowTech, rowCheap]).length ≤
        (applyFilters DEFAULTS [rowTech, rowCheap]).length :=
  ⟨by decide,
   applyFilters_antitone [rowTech, rowCheap] DEFAULTS (dictSet DEFAULTS "MIN_TURNOVER" "5e8")
     (fun k _ _ h3 => by rw [dictGet_dictSet, if_neg h3])
     (by decide) (by decide) (by decide)⟩
